import Mathlib

/-!
Shallow embedding of `pyfngrep.py`, a line-oriented scanner that searches
Python source files for a pattern and annotates each matching line with the
class / function scope it occurs in, tracked by a small per-file state
machine.

Strings are manipulated through their underlying character lists
(`String.data`), which mirrors Python's code-point level string operations.
Runtime regular-expression semantics (`re.search` with a user pattern) are
abstracted: a pattern is either malformed (compiling it raises `re.error`)
or compiled to a Boolean match function of the ignore-case flag and the
line.  The filesystem is abstracted as oracles for `Path.is_file`,
`open(p).readlines()` (lines with their trailing newline already stripped,
as the code does with `line.strip('\n')`), and `os.walk` (the list of
`(root, files)` pairs the walk yields; the code ignores the `dirs`
component of each triple).
-/

/-- Exceptions the Python code can raise: `IndexError` from
`s.split()[1]` on a short token list, `re.error` from compiling a
malformed pattern, and `NameError` from reading an undefined global. -/
inductive PyErr where
  | indexError
  | regexError
  | nameError
deriving DecidableEq

/-- Bool-valued test that `pat` is a prefix of `cs`, written by recursion on
both character lists; embeds Python `str.startswith` checks. -/
def listStarts : List Char → List Char → Bool
  | [], _ => true
  | _ :: _, [] => false
  | p :: ps, c :: cs => p == c && listStarts ps cs

/-- Embeds Python `s.startswith(pat)`. -/
def pyStartsWith (s pat : String) : Bool := listStarts pat.data s.data

/-- Embeds Python `s.endswith(pat)`. -/
def pyEndsWith (s pat : String) : Bool := listStarts pat.data.reverse s.data.reverse

/-- Bool-valued test that `pat` occurs as a contiguous run inside the second
list; embeds `re.search` for a literal pattern with no regex metacharacters. -/
def listInfix : List Char → List Char → Bool
  | pat, [] => listStarts pat []
  | pat, c :: cs => listStarts pat (c :: cs) || listInfix pat cs

/-- Embeds Python `len(line.strip()) == 0`: the stripped line is empty
exactly when every character of the line is whitespace. -/
def pyBlank (line : String) : Bool := line.data.all Char.isWhitespace

/-- Embeds Python `s[n:]` (slice from index `n` to the end). -/
def pySliceFrom (s : String) (n : Nat) : String := ⟨s.data.drop n⟩

/-- Embeds Python `line.lstrip()`. -/
def pyLstrip (line : String) : String := ⟨line.data.dropWhile Char.isWhitespace⟩

/-- Helper for `pyTokens`: splits a character list into maximal runs of
non-whitespace characters, carrying the (reversed) current run in `acc`. -/
def wsTokensAux : List Char → List Char → List (List Char)
  | acc, [] => if acc.isEmpty then [] else [acc.reverse]
  | acc, c :: rest =>
    if c.isWhitespace then
      if acc.isEmpty then wsTokensAux [] rest
      else acc.reverse :: wsTokensAux [] rest
    else wsTokensAux (c :: acc) rest

/-- Embeds Python `s.split()` (no argument): whitespace-separated tokens,
with no empty tokens. -/
def pyTokens (s : String) : List String := (wsTokensAux [] s.data).map String.mk

/-- Embeds `fn_or_class_name`: `return s.split()[1].split('(')[0]`.
The second whitespace token truncated at its first `(`; `none` models the
`IndexError` raised when there is no second token. -/
def fn_or_class_name (s : String) : Option String :=
  match pyTokens s with
  | _ :: t :: _ => some ⟨t.data.takeWhile (fun c => c ≠ '(')⟩
  | _ => none

/-- Python truthiness of the optional-string scope variables: `None` and
the empty string are falsy, every other string is truthy. -/
def truthy : Option String → Bool
  | none => false
  | some s => !s.data.isEmpty

/-- Embeds `re.match(r'^ +def ', line)` viewed as a Boolean: one or more
leading spaces followed by the literal `def `. -/
def matchesIndentedDef (line : String) : Bool :=
  pyStartsWith line " " && listStarts "def ".data (line.data.dropWhile (fun c => c = ' '))

/-- A compiled-or-malformed regular expression.  `malformed` models a
pattern whose compilation raises `re.error`; `compiled f` models a valid
pattern whose `re.search` semantics is `f ignoreCaseFlag line`. -/
inductive RePattern where
  | malformed
  | compiled (f : Bool → String → Bool)

/-- Embeds `re.search(regex, line, flags=re_flags)` as used in the scan
loop: raises `re.error` for a malformed pattern, otherwise reports whether
the line matches. -/
def reSearch (pat : RePattern) (flags : Bool) (line : String) : Except PyErr Bool :=
  match pat with
  | .malformed => .error .regexError
  | .compiled f => .ok (f flags line)

/-- A valid pattern with no regex metacharacters: `re.search` then tests
literal substring occurrence (the ignore-case flag is irrelevant for the
all-lowercase literals used below). -/
def litSearch (pat : String) : RePattern := .compiled (fun _ line => listInfix pat.data line.data)

/-- Embeds the per-line scope-state update of `_pyfngrep` (the three `if`
statements before the match test): the `class ` branch, the
function-definition branch, and the top-level blank-line reset, in source
order, each reading the state left by the previous one. -/
def stateUpdate (curcls curfn : Option String) (line : String) :
    Except PyErr (Option String × Option String) :=
  match (if pyStartsWith line "class " then
            match fn_or_class_name line with
            | none => Except.error PyErr.indexError
            | some n => Except.ok (some n, (none : Option String))
          else Except.ok (curcls, curfn)) with
  | .error e => .error e
  | .ok (c1, f1) =>
    match (if (!truthy c1 && pyStartsWith line "def ") || (truthy c1 && matchesIndentedDef line) then
              match fn_or_class_name line with
              | none => Except.error PyErr.indexError
              | some n => Except.ok (some n)
            else Except.ok f1) with
    | .error e => .error e
    | .ok f2 => .ok (c1, if !truthy c1 && pyBlank line then none else f2)

/-- The data of one emitted match, before formatting: the 1-based line
number, the scope state in force after the line's own updates, and the raw
matched line. -/
structure Emit where
  lineno : Nat
  curcls : Option String
  curfn : Option String
  line : String
deriving DecidableEq

/-- Python `f-string` rendering of an optional string: `None` prints as
the literal text `None`. -/
def pyOptStr : Option String → String
  | none => "None"
  | some s => s

/-- The part of an output line after the displayed path, mirroring the two
`print` f-strings of `_pyfngrep` (grouped to the right; string append is
associative so the grouping is immaterial). -/
def renderTail (lineno : Nat) (curcls curfn : Option String) (line : String) : String :=
  ":" ++ (toString lineno ++ (":" ++
    ((if truthy curcls then pyOptStr curcls ++ "." else "") ++
      (pyOptStr curfn ++ ("(): " ++ pyLstrip line)))))

/-- One printed output line: `rel_p` followed by the line number, scope
label and `lstrip`ped matched text. -/
def render (rel_p : String) (lineno : Nat) (curcls curfn : Option String) (line : String) : String :=
  rel_p ++ renderTail lineno curcls curfn line

/-- The inner loop of `_pyfngrep` over one file's lines: `k` lines have
been consumed so far (the code's `lineno` counter before the `lineno += 1`
of the current iteration).  Returns the emitted matches in order and the
exception, if any, that aborted the loop; nothing after the failing line is
processed. -/
def scanLines (search : String → Except PyErr Bool) :
    List String → Nat → Option String → Option String → List Emit × Option PyErr
  | [], _, _, _ => ([], none)
  | line :: rest, k, curcls, curfn =>
    match stateUpdate curcls curfn line with
    | .error e => ([], some e)
    | .ok (c, f) =>
      match search line with
      | .error e => ([], some e)
      | .ok b =>
        let r := scanLines search rest (k + 1) c f
        if b then (⟨k + 1, c, f, line⟩ :: r.1, r.2) else r

/-- Scan of a single file: the state machine starts from
`curcls, curfn, lineno = None, None, 0` and the emitted matches are
formatted with the displayed path `rel_p`. -/
def scanFile (search : String → Except PyErr Bool) (rel_p : String) (lines : List String) :
    List String × Option PyErr :=
  let r := scanLines search lines 0 none none
  (r.1.map (fun e => render rel_p e.lineno e.curcls e.curfn e.line), r.2)

/-- Observable outcome of a `_pyfngrep` run: which files were opened (in
order), the lines printed to stdout (in order), and the uncaught exception
that terminated the run, if any. -/
structure RunResult where
  opens : List String
  output : List String
  err : Option PyErr
deriving DecidableEq

/-- The outer loop of `_pyfngrep` over the target paths: each path is
opened and scanned in turn with `rel_p = p[len(base):]`; an exception stops
the run, leaving the remaining paths unopened. -/
def scanPaths (search : String → Except PyErr Bool) (base : String)
    (fsRead : String → List String) : List String → RunResult
  | [] => ⟨[], [], none⟩
  | p :: rest =>
    let r := scanFile search (pySliceFrom p base.length) (fsRead p)
    match r.2 with
    | some e => ⟨[p], r.1, some e⟩
    | none =>
      let rst := scanPaths search base fsRead rest
      ⟨p :: rst.opens, r.1 ++ rst.output, rst.err⟩

/-- Embeds `_pyfngrep(regex, paths, base, ignore_case)`: computes
`re_flags` from `ignore_case` and runs the scan loop over `paths`. -/
def _pyfngrep (regex : RePattern) (paths : List String) (base : String)
    (ignore_case : Bool) (fsRead : String → List String) : RunResult :=
  let re_flags := ignore_case
  scanPaths (reSearch regex re_flags) base fsRead paths

/-- Embeds `os.path.join(a, b)` for the two-argument calls made here. -/
def pathJoin (a b : String) : String :=
  if pyStartsWith b "/" then b
  else if a = "" then b
  else if pyEndsWith a "/" then a ++ b
  else a ++ "/" ++ b

/-- Embeds `get_paths(p)`.  `w` is the sequence of `(root, files)` pairs
yielded by `os.walk(p)` (the code discards the `dirs` component); for each
walked directory, each file name ending in `.py` or `.pyi` contributes
`os.path.join(root, f)` to the result, in walk order. -/
def get_paths (w : List (String × List String)) : List String :=
  w.flatMap (fun pr =>
    pr.2.flatMap (fun f =>
      if pyEndsWith f ".py" || pyEndsWith f ".pyi" then [pathJoin pr.1 f] else []))

/-- Filesystem oracle: `Path(p).is_file()`, `open(p).readlines()` with
newlines stripped, and the `(root, files)` pairs of `os.walk(p)`. -/
structure FS where
  isFile : String → Bool
  read : String → List String
  walk : String → List (String × List String)

/-- Embeds `pyfngrep(regex, pathspec, ignore_case)`.  The file-vs-directory
test reads the module-level global `path` (not the `pathspec` parameter);
`globalPath` is that global's binding, `none` when no such global is
defined, in which case the lookup raises `NameError`. -/
def pyfngrep (regex : RePattern) (pathspec : String) (ignore_case : Bool)
    (globalPath : Option String) (fs : FS) : Except PyErr RunResult :=
  match globalPath with
  | none => .error .nameError
  | some path =>
    if fs.isFile path then .ok (_pyfngrep regex [pathspec] "" ignore_case fs.read)
    else .ok (_pyfngrep regex (get_paths (fs.walk pathspec)) pathspec ignore_case fs.read)

/-- Embeds the `__main__` block after argument parsing: the parsed path is
bound to the module-level global `path` and then passed to `pyfngrep` as
`pathspec`, so the global and the parameter coincide on CLI runs. -/
def main_run (regex : RePattern) (path : String) (ignore_case : Bool) (fs : FS) :
    Except PyErr RunResult :=
  pyfngrep regex path ignore_case (some path) fs

/-- Enumeration of the `(directory, filename)` pairs of all regular files
reported by the walk, in walk order, used to state what `get_paths`
selects from. -/
def walkFiles (w : List (String × List String)) : List (String × String) :=
  w.flatMap (fun pr => pr.2.map (fun f => (pr.1, f)))

/-- The suffix test `get_paths` applies to a file name. -/
def isPyName (f : String) : Bool := pyEndsWith f ".py" || pyEndsWith f ".pyi"

/-! ## Helper lemmas -/

theorem fn_or_class_name_short (line : String) (h : (pyTokens line).length < 2) :
    fn_or_class_name line = none := by
  unfold fn_or_class_name
  match hT : pyTokens line with
  | [] => rfl
  | [_] => rfl
  | _ :: _ :: _ => rw [hT] at h; simp at h; omega

theorem listStarts_of_all_ws (c : Char) (ps : List Char) (cs : List Char)
    (hall : ∀ x ∈ cs, x.isWhitespace = true) (hc : c.isWhitespace = false) :
    listStarts (c :: ps) cs = false := by
  cases cs with
  | nil => rfl
  | cons x xs =>
    have hx := hall x (List.mem_cons_self x xs)
    cases hcx : c == x with
    | false => simp [listStarts, hcx]
    | true =>
      have : c = x := eq_of_beq hcx
      rw [this, hx] at hc
      cases hc

theorem pyBlank_all (line : String) (h : pyBlank line = true) :
    ∀ x ∈ line.data, x.isWhitespace = true := by
  intro x hx
  exact List.all_eq_true.mp h x hx

theorem blank_not_class (line : String) (h : pyBlank line = true) :
    pyStartsWith line "class " = false := by
  unfold pyStartsWith
  exact listStarts_of_all_ws 'c' _ _ (pyBlank_all line h) rfl

theorem blank_not_def (line : String) (h : pyBlank line = true) :
    pyStartsWith line "def " = false := by
  unfold pyStartsWith
  exact listStarts_of_all_ws 'd' _ _ (pyBlank_all line h) rfl

theorem blank_not_indentedDef (line : String) (h : pyBlank line = true) :
    matchesIndentedDef line = false := by
  unfold matchesIndentedDef
  have h2 : listStarts "def ".data (line.data.dropWhile (fun c => c = ' ')) = false := by
    refine listStarts_of_all_ws 'd' _ _ ?_ rfl
    intro x hx
    exact pyBlank_all line h x ((List.dropWhile_sublist (fun c => c = ' ')).mem hx)
  rw [h2, Bool.and_false]

/-! ## Claim theorems -/

/-- C4 (counterexample): as stated, the claim fails.  `currentClass` can be
set to the empty string (a line such as `class (x):` yields the token
portion before `(`, which is empty); the code's `not curcls` test uses
Python truthiness, which treats the empty string like `None`, so a blank
line does reset `currentFunction` even though `currentClass` is set. -/
theorem blank_reset_ce :
    ¬ (∀ (cls : String) (fn : Option String) (line : String), pyBlank line = true →
        stateUpdate (some cls) fn line = .ok (some cls, fn)) := by
  intro h
  have h1 := h "" (some "f") "" rfl
  have h2 : stateUpdate (some "") (some "f") "" = .ok (some "", none) := rfl
  rw [h2] at h1
  simp at h1

/-- C4 (amended): on a line that is blank after stripping, the scope update
leaves `currentClass` unchanged and resets `currentFunction` exactly when
`currentClass` is falsy in Python's sense, i.e. `None` or the empty string;
when `currentClass` is a non-empty string the blank line changes nothing. -/
theorem blank_reset_amended (cls fn : Option String) (line : String)
    (h : pyBlank line = true) :
    stateUpdate cls fn line = .ok (cls, if truthy cls then fn else none) := by
  unfold stateUpdate
  rw [blank_not_class line h, blank_not_def line h, blank_not_indentedDef line h, h]
  simp only [Bool.and_false, Bool.false_or, if_false]
  cases htc : truthy cls <;> simp [htc]

/-- C4 (witness for the amended theorem): inside class `C` with current
method `m`, the blank line `" "` changes nothing. -/
theorem blank_reset_amended_w :
    pyBlank " " = true ∧ stateUpdate (some "C") (some "m") " " = .ok (some "C", some "m") := by
  refine ⟨rfl, ?_⟩
  have h := blank_reset_amended (some "C") (some "m") " " rfl
  simpa using h

/-- C5: on a definition line whose whitespace token list has at least two
tokens, the extracted name is the second token truncated at its first `(`,
and when the second token has no `(` it is returned whole (any trailing
`:` included). -/
theorem fn_name_second_token (s t0 t1 : String) (rest : List String)
    (h : pyTokens s = t0 :: t1 :: rest) :
    fn_or_class_name s = some ⟨t1.data.takeWhile (fun c => c ≠ '(')⟩ ∧
    ((∀ c ∈ t1.data, c ≠ '(') → fn_or_class_name s = some t1) := by
  constructor
  · unfold fn_or_class_name
    rw [h]
  · intro hc
    unfold fn_or_class_name
    rw [h]
    have ht : t1.data.takeWhile (fun c => c ≠ '(') = t1.data := by
      apply List.takeWhile_eq_self_iff.mpr
      intro x hx
      simpa using hc x hx
    simp only [ht]

/-- C5 (witness): `class Foo:` splits into tokens `class` and `Foo:`; the
second token has no `(`, so the whole token `Foo:` is extracted. -/
theorem fn_name_second_token_w :
    pyTokens "class Foo:" = ["class", "Foo:"] ∧
    fn_or_class_name "class Foo:" = some "Foo:" := by
  refine ⟨by decide, ?_⟩
  exact (fn_name_second_token "class Foo:" "class" "Foo:" [] (by decide)).2 (by decide)

/-- C9: the unset-function placeholder renders as the literal string
`None`: a match inside a class before any method prints
`ClassName.None()`, and a top-level match after a blank-line reset prints
`None()`. -/
theorem unset_function_renders_None :
    pyOptStr none = "None" ∧
    (_pyfngrep (litSearch "needle") ["p"] "" false
        (fun _ => ["class C(object):", "    has needle"])).output =
      ["p:2:C.None(): has needle"] ∧
    (_pyfngrep (litSearch "needle") ["p"] "" false
        (fun _ => ["def f():", "    needle a", "", "needle b"])).output =
      ["p:2:f(): needle a", "p:4:None(): needle b"] :=
  ⟨rfl, rfl, rfl⟩

/-- C1 (counterexample): for the spec's three-line example file, the run
does not produce the output line claimed (`Foo.bar()`): the class token of
`class Foo:` contains no `(`, so the extracted class name keeps its
trailing colon and the scope label is `Foo:.bar()`. -/
theorem end_to_end_needle_ce :
    (_pyfngrep (litSearch "needle") ["p"] "" false
        (fun _ => ["class Foo:", "    def bar(self):", "        x = \"needle\""])).output ≠
      ["p:3:Foo.bar(): x = \"needle\""] := by decide

/-- C1 (amended): scanning the example file for `needle` emits exactly one
match, on line 3, with the leading whitespace of the matched line removed,
but with scope label `Foo:.bar()` (the class name keeps the colon because
`class Foo:` has no parenthesis to truncate at). -/
theorem end_to_end_needle_amended (pth : String) :
    (_pyfngrep (litSearch "needle") [pth] "" false
        (fun _ => ["class Foo:", "    def bar(self):", "        x = \"needle\""])).output =
      [pth ++ ":3:Foo:.bar(): x = \"needle\""] := rfl

/-- C3 (counterexample): with a malformed pattern and one nonempty target
file, the run does open that file (it is read and its first line is
processed before `re.search` first compiles the pattern and raises), so
the error does not occur before any file is scanned. -/
theorem malformed_regex_ce :
    (_pyfngrep RePattern.malformed ["a.py"] "" false (fun _ => ["x"])).opens = ["a.py"] ∧
    (_pyfngrep RePattern.malformed ["a.py"] "" false (fun _ => ["x"])).output = [] ∧
    (_pyfngrep RePattern.malformed ["a.py"] "" false (fun _ => ["x"])).err =
      some PyErr.regexError ∧
    (["a.py"] : List String) ≠ [] :=
  ⟨rfl, rfl, rfl, by decide⟩

/-- C10: the driver tests the module-level global `path`, not its
`pathspec` parameter: with no global defined every call raises `NameError`
before any scanning; with the global defined, the file-vs-directory branch
is decided by the global's value; concretely, a `pathspec` that is an
existing file still goes through the directory collector when the global
names a non-file. -/
theorem driver_tests_global_path :
    (∀ (regex : RePattern) (ps : String) (ic : Bool) (fs : FS),
        pyfngrep regex ps ic none fs = .error .nameError) ∧
    (∀ (regex : RePattern) (ps : String) (ic : Bool) (gp : String) (fs : FS),
        pyfngrep regex ps ic (some gp) fs =
          if fs.isFile gp then .ok (_pyfngrep regex [ps] "" ic fs.read)
          else .ok (_pyfngrep regex (get_paths (fs.walk ps)) ps ic fs.read)) ∧
    (FS.isFile ⟨fun p => p == "f.py", fun _ => ["needle"], fun _ => []⟩ "f.py" = true ∧
      pyfngrep (litSearch "needle") "f.py" false (some "d")
          ⟨fun p => p == "f.py", fun _ => ["needle"], fun _ => []⟩ =
        .ok ⟨[], [], none⟩) :=
  ⟨fun _ _ _ _ => rfl, fun _ _ _ _ _ => rfl, rfl, rfl⟩

theorem scanLines_all_error (search : String → Except PyErr Bool)
    (hs : ∀ line, search line = Except.error PyErr.regexError) :
    ∀ (lines : List String) (k : Nat) (c f : Option String),
      (scanLines search lines k c f).1 = [] ∧
      ((scanLines search lines k c f).2 = none ↔ lines = []) := by
  intro lines k c f
  cases lines with
  | nil => simp [scanLines]
  | cons line rest =>
    simp only [scanLines]
    cases h : stateUpdate c f line with
    | error e => simp
    | ok p =>
      obtain ⟨c1, f1⟩ := p
      simp [hs line]

/-- C3 (amended): a malformed pattern never produces any match output, but
the `re.error` is raised at the first `re.search` call, i.e. while
processing a line of the first nonempty target file, after that file has
been opened and read; if every target file is empty (or there are no
targets) no error is raised at all. -/
theorem malformed_regex_amended (flag : Bool) (paths : List String) (base : String)
    (fs : String → List String) :
    (_pyfngrep RePattern.malformed paths base flag fs).output = [] ∧
    ((_pyfngrep RePattern.malformed paths base flag fs).err = none ↔ ∀ p ∈ paths, fs p = []) := by
  have hs : ∀ line, reSearch RePattern.malformed flag line = Except.error PyErr.regexError :=
    fun _ => rfl
  show (scanPaths (reSearch RePattern.malformed flag) base fs paths).output = [] ∧
    ((scanPaths (reSearch RePattern.malformed flag) base fs paths).err = none ↔
      ∀ p ∈ paths, fs p = [])
  induction paths with
  | nil => simp [scanPaths]
  | cons p rest ih =>
    simp only [scanPaths, scanFile]
    have h1 := scanLines_all_error _ hs (fs p) 0 none none
    cases hfp : fs p with
    | nil =>
      have h2 : (scanLines (reSearch RePattern.malformed flag) ([] : List String) 0 none none)
          = ([], none) := rfl
      rw [h2]
      simp only [List.map_nil, List.nil_append]
      constructor
      · exact ih.1
      · rw [ih.2]
        simp [hfp]
    | cons l ls =>
      rw [hfp] at h1
      cases h2 : (scanLines (reSearch RePattern.malformed flag) (l :: ls) 0 none none).2 with
      | none => exact absurd (h1.2.mp h2) (by simp)
      | some e =>
        rw [h1.1]
        simp only [List.map_nil]
        constructor
        · trivial
        · constructor
          · intro hc; cases hc
          · intro hall
            have := hall p (List.mem_cons_self p rest)
            rw [hfp] at this
            cases this

theorem scanFile_output_shape (search : String → Except PyErr Bool) (relp : String)
    (lines : List String) :
    ∀ l ∈ (scanFile search relp lines).1, ∃ t, l = relp ++ (":" ++ t) := by
  intro l hl
  simp only [scanFile, List.mem_map] at hl
  obtain ⟨e, _, rfl⟩ := hl
  exact ⟨_, rfl⟩

/-- C2: on a CLI run whose input path is an existing file, the directory
collector is bypassed: the scan runs over exactly the one-element target
list containing that path with an empty display `base`, and every emitted
line prints the path exactly as supplied, followed by a colon (no suffix
filtering is involved anywhere on this branch). -/
theorem single_file_bypass (regex : RePattern) (path : String) (ic : Bool) (fs : FS)
    (h : fs.isFile path = true) :
    main_run regex path ic fs = .ok (_pyfngrep regex [path] "" ic fs.read) ∧
    ∀ l ∈ (_pyfngrep regex [path] "" ic fs.read).output, ∃ t, l = path ++ (":" ++ t) := by
  constructor
  · show pyfngrep regex path ic (some path) fs = _
    simp only [pyfngrep, h, if_true]
  · intro l hl
    have hshape := scanFile_output_shape (reSearch regex ic) (pySliceFrom path "".length)
      (fs.read path)
    revert hl
    show l ∈ (scanPaths (reSearch regex ic) "" fs.read [path]).output → _
    simp only [scanPaths]
    cases h2 : (scanFile (reSearch regex ic) (pySliceFrom path "".length) (fs.read path)).2 with
    | some e =>
      intro hl
      exact hshape l hl
    | none =>
      intro hl
      simp only [List.append_nil] at hl
      exact hshape l hl

/-- C2 (witness): a single-file run on `/x/y/z.py` takes the bypass branch
and prints `/x/y/z.py:`-prefixed matches. -/
theorem single_file_bypass_w :
    FS.isFile ⟨fun _ => true, fun _ => ["needle"], fun _ => []⟩ "/x/y/z.py" = true ∧
    (main_run (litSearch "needle") "/x/y/z.py" false
        ⟨fun _ => true, fun _ => ["needle"], fun _ => []⟩ =
      .ok (_pyfngrep (litSearch "needle") ["/x/y/z.py"] "" false
        (FS.read ⟨fun _ => true, fun _ => ["needle"], fun _ => []⟩)) ∧
      ∀ l ∈ (_pyfngrep (litSearch "needle") ["/x/y/z.py"] "" false
          (FS.read ⟨fun _ => true, fun _ => ["needle"], fun _ => []⟩)).output,
        ∃ t, l = "/x/y/z.py" ++ (":" ++ t)) :=
  ⟨rfl, single_file_bypass (litSearch "needle") "/x/y/z.py" false
    ⟨fun _ => true, fun _ => ["needle"], fun _ => []⟩ rfl⟩

/-- C6: a line the scanner recognizes as a `class` or function definition
but whose whitespace token list has fewer than two tokens makes name
extraction raise `IndexError`; the exception aborts the current file's
scan at that line (no placeholder is substituted) and stops the whole run,
leaving the remaining files unopened.  The last conjunct exercises this end
to end: the match on line 1 of `f1` is still printed, the degenerate
`def ` on line 2 raises, and `f2` is never opened. -/
theorem extraction_error_propagates :
    (∀ (cls fn : Option String) (line : String),
        (pyTokens line).length < 2 →
        (pyStartsWith line "class " = true ∨
          ((!truthy cls && pyStartsWith line "def ") ||
            (truthy cls && matchesIndentedDef line)) = true) →
        stateUpdate cls fn line = .error .indexError) ∧
    (∀ (search : String → Except PyErr Bool) (rest : List String) (k : Nat)
        (c f : Option String) (line : String) (e : PyErr),
        stateUpdate c f line = .error e →
        scanLines search (line :: rest) k c f = ([], some e)) ∧
    (∀ (search : String → Except PyErr Bool) (base : String)
        (fsRead : String → List String) (p : String) (rest : List String) (e : PyErr),
        (scanFile search (pySliceFrom p base.length) (fsRead p)).2 = some e →
        scanPaths search base fsRead (p :: rest) =
          ⟨[p], (scanFile search (pySliceFrom p base.length) (fsRead p)).1, some e⟩) ∧
    (_pyfngrep (litSearch "needle") ["f1", "f2"] "" false
        (fun p => if p = "f1" then ["x needle", "def "] else ["needle"]) =
      ⟨["f1"], ["f1:1:None(): x needle"], some PyErr.indexError⟩) := by
  refine ⟨?_, ?_, ?_, ?_⟩
  · intro cls fn line hlen hrec
    have hnone := fn_or_class_name_short line hlen
    rcases hrec with hcl | hdef
    · simp [stateUpdate, hcl, hnone]
    · cases hcl2 : pyStartsWith line "class " with
      | true => simp [stateUpdate, hcl2, hnone]
      | false => simp [stateUpdate, hcl2, hdef, hnone]
  · intro search rest k c f line e h
    simp [scanLines, h]
  · intro search base fsRead p rest e h
    simp only [scanPaths]
    simp [h]
  · rfl

/-- C6 (witness): the degenerate top-level line `def ` raises `IndexError`
in the state update, aborts a file scan at its line, and stops the path
loop before later files. -/
theorem extraction_error_propagates_w :
    stateUpdate none none "def " = .error .indexError ∧
    scanLines (reSearch (litSearch "needle") false) ["def ", "zz"] 0 none none =
      ([], some PyErr.indexError) ∧
    scanPaths (reSearch (litSearch "needle") false) "" (fun _ => ["def "]) ["f1", "f2"] =
      ⟨["f1"], [], some PyErr.indexError⟩ := by
  refine ⟨?_, ?_, ?_⟩
  · exact extraction_error_propagates.1 none none "def " (by decide) (Or.inr (by decide))
  · exact extraction_error_propagates.2.1 _ ["zz"] 0 none none "def " PyErr.indexError rfl
  · have h := extraction_error_propagates.2.2.1 (reSearch (litSearch "needle") false) ""
      (fun _ => ["def "]) "f1" ["f2"] PyErr.indexError (by decide)
    simpa using h

theorem count_filter_eq {α : Type} [BEq α] [LawfulBEq α] (p : α → Bool) (a : α) (l : List α) :
    List.count a (l.filter p) = if p a then List.count a l else 0 := by
  induction l with
  | nil => simp
  | cons x xs ih =>
    simp only [List.filter_cons]
    by_cases hax : a = x
    · subst hax
      cases hpa : p a with
      | true => simp [hpa, List.count_cons, ih]
      | false => simp [hpa, ih]
    · cases hpx : p x with
      | true => simp [List.count_cons, hax, ih]
      | false => simp [List.count_cons, hax, ih]

theorem flatMap_filter_map {α β : Type} (p : α → Bool) (j : α → β) (l : List α) :
    l.flatMap (fun x => if p x then [j x] else []) = (l.filter p).map j := by
  induction l with
  | nil => rfl
  | cons x xs ih =>
    simp only [List.flatMap_cons, List.filter_cons]
    cases hp : p x with
    | true => simp [ih]
    | false => simp [ih]

/-- C7: `get_paths` returns exactly the files enumerated by the walk whose
names end in `.py` or `.pyi`: it equals the suffix-filtered walk
enumeration mapped through `os.path.join`; membership is characterized by
that filter; and multiplicities are preserved for matching files while
files with any other suffix contribute nothing, so a file the walk lists
once appears exactly once. -/
theorem get_paths_exactly_suffix_files (w : List (String × List String)) :
    get_paths w =
      ((walkFiles w).filter (fun pr => isPyName pr.2)).map (fun pr => pathJoin pr.1 pr.2) ∧
    (∀ q, q ∈ get_paths w ↔
      ∃ d n, (d, n) ∈ walkFiles w ∧ isPyName n = true ∧ q = pathJoin d n) ∧
    (∀ pr : String × String,
      List.count pr ((walkFiles w).filter (fun pr => isPyName pr.2)) =
        if isPyName pr.2 then List.count pr (walkFiles w) else 0) := by
  have heq : get_paths w =
      ((walkFiles w).filter (fun pr => isPyName pr.2)).map (fun pr => pathJoin pr.1 pr.2) := by
    induction w with
    | nil => rfl
    | cons pr rest ih =>
      obtain ⟨d, files⟩ := pr
      have hstep : get_paths ((d, files) :: rest) =
          files.flatMap (fun f =>
            if pyEndsWith f ".py" || pyEndsWith f ".pyi" then [pathJoin d f] else []) ++
            get_paths rest := rfl
      have hwstep : walkFiles ((d, files) :: rest) =
          files.map (fun f => (d, f)) ++ walkFiles rest := rfl
      rw [hstep, hwstep, List.filter_append, List.map_append, ih]
      congr 1
      rw [flatMap_filter_map (fun f => pyEndsWith f ".py" || pyEndsWith f ".pyi")
        (fun f => pathJoin d f) files]
      rw [List.filter_map, List.map_map]
      rfl
  refine ⟨heq, ?_, ?_⟩
  · intro q
    rw [heq]
    simp only [List.mem_map, List.mem_filter]
    constructor
    · rintro ⟨⟨d, n⟩, ⟨hmem, hP⟩, rfl⟩
      exact ⟨d, n, hmem, hP, rfl⟩
    · rintro ⟨d, n, hmem, hP, rfl⟩
      exact ⟨(d, n), ⟨hmem, hP⟩, rfl⟩
  · intro pr
    exact count_filter_eq _ pr _

theorem scanLines_lineno (search : String → Except PyErr Bool) :
    ∀ (lines : List String) (k : Nat) (c f : Option String),
      (∀ e ∈ (scanLines search lines k c f).1,
          k + 1 ≤ e.lineno ∧ e.lineno ≤ k + lines.length ∧
          lines[e.lineno - k - 1]? = some e.line) ∧
      List.Pairwise (fun a b => a.lineno < b.lineno) (scanLines search lines k c f).1 := by
  intro lines
  induction lines with
  | nil =>
    intro k c f
    simp [scanLines]
  | cons line rest ih =>
    intro k c f
    simp only [scanLines]
    cases h1 : stateUpdate c f line with
    | error e => simp
    | ok p =>
      obtain ⟨c1, f1⟩ := p
      cases h2 : search line with
      | error e => simp
      | ok b =>
        obtain ⟨ihm, ihp⟩ := ih (k + 1) c1 f1
        cases b with
        | false =>
          simp only [if_neg Bool.false_ne_true]
          constructor
          · intro e he
            obtain ⟨ha, hb, hc⟩ := ihm e he
            refine ⟨by omega, ?_, ?_⟩
            · simp only [List.length_cons]
              omega
            · have hn : e.lineno - k - 1 = (e.lineno - (k + 1) - 1) + 1 := by omega
              rw [hn, List.getElem?_cons_succ]
              exact hc
          · exact ihp
        | true =>
          simp only [if_true]
          constructor
          · intro e he
            rcases List.mem_cons.mp he with heq | htl
            · subst heq
              refine ⟨le_refl _, ?_, ?_⟩
              · simp only [List.length_cons]
                omega
              · have hz : k + 1 - k - 1 = 0 := by omega
                rw [hz]
                simp
            · obtain ⟨ha, hb, hc⟩ := ihm e htl
              refine ⟨by omega, ?_, ?_⟩
              · simp only [List.length_cons]
                omega
              · have hn : e.lineno - k - 1 = (e.lineno - (k + 1) - 1) + 1 := by omega
                rw [hn, List.getElem?_cons_succ]
                exact hc
          · rw [List.pairwise_cons]
            constructor
            · intro e he
              have := (ihm e he).1
              show k + 1 < e.lineno
              omega
            · exact ihp

/-- C8: every emitted match carries a line number that is the 1-based
physical index of the matched line in its file (blank lines counted):
it lies in `[1, length]` and indexing the file's lines at `lineno - 1`
returns exactly the matched line; line numbers are strictly increasing
within a file; and the path loop starts each file from a fresh
`scanFile`, whose counter restarts at zero, so numbering resets per
file. -/
theorem lineno_physical_index (search : String → Except PyErr Bool) (lines : List String) :
    (∀ e ∈ (scanLines search lines 0 none none).1,
        1 ≤ e.lineno ∧ e.lineno ≤ lines.length ∧ lines[e.lineno - 1]? = some e.line) ∧
    List.Pairwise (fun a b => a.lineno < b.lineno) (scanLines search lines 0 none none).1 ∧
    (∀ (base : String) (fsRead : String → List String) (p : String) (rest : List String),
        (scanPaths search base fsRead (p :: rest)).output =
          (scanFile search (pySliceFrom p base.length) (fsRead p)).1 ++
            (match (scanFile search (pySliceFrom p base.length) (fsRead p)).2 with
              | some _ => []
              | none => (scanPaths search base fsRead rest).output)) := by
  obtain ⟨hm, hp⟩ := scanLines_lineno search lines 0 none none
  refine ⟨?_, hp, ?_⟩
  · intro e he
    obtain ⟨ha, hb, hc⟩ := hm e he
    refine ⟨ha, by omega, ?_⟩
    have hn : e.lineno - 1 = e.lineno - 0 - 1 := by omega
    rw [hn]
    exact hc
  · intro base fsRead p rest
    simp only [scanPaths]
    cases h : (scanFile search (pySliceFrom p base.length) (fsRead p)).2 with
    | some e => simp [h]
    | none => simp [h]

/-- C8 (witness): in a one-line file whose line matches, the emitted match
has line number 1, within bounds, and indexing at 0 returns the line. -/
theorem lineno_physical_index_w :
    1 ≤ (1 : Nat) ∧ (1 : Nat) ≤ (["a needle"] : List String).length ∧
      (["a needle"] : List String)[(1 : Nat) - 1]? = some "a needle" := by
  exact (lineno_physical_index (reSearch (litSearch "needle") false) ["a needle"]).1
    ⟨1, none, none, "a needle"⟩ (by decide)
